import Mathlib

/-!
Verification development for the Binance auto-rebalance ladder bot.

The definitions below are shallow embeddings of the Python source:
* `_calculate_ladders` embeds `Strategy._calculate_ladders` (src/strategy.py,
  lines 24-64): additive cumulative gap with early truncation once the
  cumulative gap reaches 100%.
* `update_prices` embeds `Strategy.update_prices` (src/strategy.py, lines
  66-86).
* `calculate_position_size` and `calculate_profit` embed the two methods of
  `MartingaleCalculator` (src/martingale.py).
* `buyPhase`, `sellPhase`, `processBar`, `runBars` and `Backtester_run` embed
  `Backtester.run` (backtest/backtester.py, lines 22-104).
* `generate_report_no_trades` embeds the `if not self.trades` branch of
  `Backtester.generate_report` (backtest/backtester.py, lines 106-113).
* `_calculate_max_drawdown` embeds `Backtester._calculate_max_drawdown`
  (backtest/backtester.py, lines 154-158).

Machine floats are modelled by `ℚ`; Python runtime exceptions (IndexError,
KeyError, ZeroDivisionError) are modelled by the `PyError` error monad.
-/

/-- Status of one ladder level, the `status` key of a ladder dict. -/
inductive LStatus where
  | pending
  | active
  | closed
deriving DecidableEq

/-- One ladder dict as built by `Strategy._calculate_ladders`; the four
`Option` fields are the keys added later by `Strategy.update_prices`
(`none` models the key being absent from the dict). -/
structure Ladder where
  level : Int
  fibonacci : ℚ
  gap_percent : ℚ
  cumulative_gap_percent : ℚ
  buy_price_multiplier : ℚ
  sell_price_multiplier : ℚ
  units : ℕ
  status : LStatus
  buy_price : Option ℚ
  sell_price : Option ℚ
  usdt_cost : Option ℚ
  btc_amount : Option ℚ
deriving DecidableEq

instance : Inhabited Ladder :=
  ⟨⟨0, 0, 0, 0, 0, 0, 0, LStatus.pending, none, none, none, none⟩⟩

/-- Python runtime exceptions that the embedded code can raise.
`emptyDataError` is not raised anywhere in the source: it is
Modelled from the spec: the dedicated `EmptyDataError` the spec's error
taxonomy demands for an empty bar sequence.  No such class exists in the
repository; it is included only so that statements about it can be written. -/
inductive PyError where
  | indexError
  | keyError
  | zeroDivisionError
  | emptyDataError
deriving DecidableEq

/-- Helper for `Strategy._calculate_ladders`: the loop body.  The first list
argument is the tail of the Fibonacci weights not yet consumed (the Python
code indexes `fibonacci[i]`; consuming the list is equivalent whenever the
weight list is at least as long as the requested ladder count, which is the
configuration contract), the `ℕ` fuel is the number of levels still to
produce, `i` the current index and the last argument the running additive
`cumulative_gap`. -/
def _calculate_ladders_aux (base_gap : ℚ) : List ℚ → ℕ → ℕ → ℚ → List Ladder
  | _, 0, _, _ => []
  | [], _ + 1, _, _ => []
  | fib :: rest, n + 1, i, cumulative_gap =>
    let gap := base_gap * fib
    let cum := cumulative_gap + gap
    if 1 ≤ cum then []
    else
      { level := -(i + 1 : Int)
        fibonacci := fib
        gap_percent := gap
        cumulative_gap_percent := cum
        buy_price_multiplier := 1 - cum
        sell_price_multiplier := if 0 < i then 1 - (cum - gap) else 1
        units := 2 ^ i
        status := LStatus.pending
        buy_price := none
        sell_price := none
        usdt_cost := none
        btc_amount := none } :: _calculate_ladders_aux base_gap rest n (i + 1) cum

/-- Embedding of `Strategy._calculate_ladders` (src/strategy.py lines 24-64):
iterates over the first `num_ladders` Fibonacci weights, accumulating the
additive cumulative gap, and stops early (truncation) as soon as the
cumulative gap reaches 1.0. -/
def _calculate_ladders (base_gap : ℚ) (fibonacci : List ℚ) (num_ladders : ℕ) : List Ladder :=
  _calculate_ladders_aux base_gap fibonacci num_ladders 0 0

/-- Embedding of `Strategy.update_prices` (src/strategy.py lines 66-86).
`unit_size` is the `unit_size_*` config value (default 0.01 in the source).
The Python code indexes `self.ladders[0]`, so an empty ladder list raises
IndexError.  For each ladder the buy/sell price keys are always written;
`usdt_cost` and `btc_amount` are written only when both prices are
positive (the source logs and skips otherwise). -/
def update_prices (current_price unit_size : ℚ) (ladders : List Ladder) :
    Except PyError (List Ladder) :=
  match ladders with
  | [] => Except.error PyError.indexError
  | l0 :: _ =>
    let first_ladder_buy_price := current_price * l0.buy_price_multiplier
    let base_usdt_per_unit := first_ladder_buy_price * unit_size
    Except.ok <| ladders.map fun l =>
      let bp := current_price * l.buy_price_multiplier
      let sp := current_price * l.sell_price_multiplier
      if bp ≤ 0 ∨ sp ≤ 0 then
        { l with buy_price := some bp, sell_price := some sp }
      else
        let uc := (l.units : ℚ) * base_usdt_per_unit
        { l with buy_price := some bp, sell_price := some sp,
                 usdt_cost := some uc, btc_amount := some (uc / bp) }

/-- Result dict of `MartingaleCalculator.calculate_position_size`. -/
structure PositionSizeResult where
  level : ℕ
  units : Int
  previous_cost : ℚ
  target_profit : ℚ
  recommended_units : Int
deriving DecidableEq

/-- Python `int()` applied to a rational: truncation toward zero. -/
def pyInt (x : ℚ) : Int :=
  if 0 ≤ x then ⌊x⌋ else ⌈x⌉

/-- Embedding of `MartingaleCalculator.calculate_position_size`
(src/martingale.py lines 13-44).  The docstring fixes `level` to 1, 2, 3,
...; `fee_rate` is the constructor argument (default 0.001) and
`target_profit` the keyword argument (default 10), both passed explicitly
here.  The expression `total_recovery / (gap_amount / gap_amount *
fee_multiplier)` raises ZeroDivisionError when `gap_amount` is zero (and
also when the fee multiplier is zero); otherwise `gap_amount / gap_amount`
is 1. -/
def calculate_position_size (fee_rate : ℚ) (level : ℕ)
    (previous_cost gap_amount target_profit : ℚ) :
    Except PyError PositionSizeResult :=
  let units : Int := 2 ^ (level - 1)
  let total_recovery := previous_cost + target_profit
  let fee_multiplier := 1 + 2 * fee_rate
  if gap_amount = 0 then Except.error PyError.zeroDivisionError
  else if gap_amount / gap_amount * fee_multiplier = 0 then
    Except.error PyError.zeroDivisionError
  else
    let min_position_value := total_recovery / (gap_amount / gap_amount * fee_multiplier)
    Except.ok
      { level := level
        units := units
        previous_cost := previous_cost
        target_profit := target_profit
        recommended_units := max units (pyInt (min_position_value / gap_amount) + 1) }

/-- Result dict of `MartingaleCalculator.calculate_profit`. -/
structure ProfitResult where
  buy_cost : ℚ
  buy_fee : ℚ
  total_buy_cost : ℚ
  sell_revenue : ℚ
  sell_fee : ℚ
  net_sell_revenue : ℚ
  profit : ℚ
  roi_percent : ℚ
deriving DecidableEq

/-- Embedding of `MartingaleCalculator.calculate_profit`
(src/martingale.py lines 46-78). -/
def calculate_profit (fee_rate buy_price sell_price quantity : ℚ) : ProfitResult :=
  let buy_cost := buy_price * quantity
  let buy_fee := buy_cost * fee_rate
  let total_buy_cost := buy_cost + buy_fee
  let sell_revenue := sell_price * quantity
  let sell_fee := sell_revenue * fee_rate
  let net_sell_revenue := sell_revenue - sell_fee
  let profit := net_sell_revenue - total_buy_cost
  let roi := if 0 < total_buy_cost then profit / total_buy_cost * 100 else 0
  { buy_cost := buy_cost
    buy_fee := buy_fee
    total_buy_cost := total_buy_cost
    sell_revenue := sell_revenue
    sell_fee := sell_fee
    net_sell_revenue := net_sell_revenue
    profit := profit
    roi_percent := roi }

/-- Value stored under a key of the no-trades report dict. -/
inductive RVal where
  | s (v : String)
  | q (v : ℚ)
  | b (v : Bool)
deriving DecidableEq

/-- Embedding of the `if not self.trades` branch of
`Backtester.generate_report` (backtest/backtester.py lines 108-113): the
report returned by a backtest that executed zero trades, modelled as the
association list of its dict entries.  The statistics branch (lines
115-152) aggregates with pandas and is embedded separately where claims
need it (`_calculate_max_drawdown` below). -/
def generate_report_no_trades (initial_capital final_capital : ℚ) :
    List (String × RVal) :=
  [("error", RVal.s "No trades executed"),
   ("initial_capital", RVal.q initial_capital),
   ("final_capital", RVal.q final_capital)]

/-- Helper for `_calculate_max_drawdown`: the tail of pandas
`expanding(min_periods=1).max()`, carrying the running peak. -/
def peaksAux (peak : ℚ) : List ℚ → List ℚ
  | [] => []
  | v :: vs => max peak v :: peaksAux (max peak v) vs

/-- pandas `expanding(min_periods=1).max()` over the `total_value` column:
the running maximum of all values seen so far. -/
def expanding_max : List ℚ → List ℚ
  | [] => []
  | v :: vs => v :: peaksAux v vs

/-- The `drawdown` series: `(total_value - peak) / peak`, elementwise. -/
def drawdown_list (vs : List ℚ) : List ℚ :=
  List.zipWith (fun v p => (v - p) / p) vs (expanding_max vs)

/-- Helper: fold of `min` over a list with an initial accumulator
(pandas `Series.min` on a nonempty series). -/
def minAux (m : ℚ) : List ℚ → ℚ
  | [] => m
  | v :: vs => minAux (min m v) vs

/-- Embedding of `Backtester._calculate_max_drawdown`
(backtest/backtester.py lines 154-158) on the `total_value` column:
running peak, elementwise drawdown, minimum times 100.  pandas returns NaN
on an empty column; the claims only concern nonempty snapshot sequences,
for which the `[]` branch is unreachable. -/
def _calculate_max_drawdown (vs : List ℚ) : ℚ :=
  match drawdown_list vs with
  | [] => 0
  | d :: ds => minAux d ds * 100

/-- One OHLC bar row as consumed by `Backtester.run`; the `open` column is
present in the data but never read by the engine, so it is omitted. -/
structure Bar where
  timestamp : ℚ
  low : ℚ
  high : ℚ
  close : ℚ
deriving DecidableEq

/-- One entry of the `active_ladders` list inside `Backtester.run`.  The
Python entry holds a reference to the ladder dict; since ladder prices are
fixed for the whole run, the fields read at sell time (`sell_price`,
`level`) are copied here, and `idx` is the position of the ladder in the
strategy's ladder list, used to flip its status on a sell fill. -/
structure Position where
  idx : ℕ
  level : Int
  sell_price : Option ℚ
  buy_price : ℚ
  buy_time : ℚ
  quantity : ℚ
  cost : ℚ
deriving DecidableEq

/-- One trade dict appended to `self.trades` on a sell fill. -/
structure Trade where
  buy_time : ℚ
  sell_time : ℚ
  level : Int
  buy_price : ℚ
  sell_price : ℚ
  quantity : ℚ
  cost : ℚ
  revenue : ℚ
  profit : ℚ
  roi : ℚ
deriving DecidableEq

/-- One entry of `self.portfolio_value`. -/
structure Snapshot where
  timestamp : ℚ
  cash : ℚ
  positions_value : ℚ
  total_value : ℚ
deriving DecidableEq

/-- The mutable state of `Backtester.run` threaded through the bar loop. -/
structure BTState where
  ladders : List Ladder
  capital : ℚ
  positions : List Position
  trades : List Trade
  snaps : List Snapshot
deriving DecidableEq

/-- Result of the buy loop over one bar. -/
structure BuyOut where
  ladders : List Ladder
  capital : ℚ
  positions : List Position
deriving DecidableEq

/-- Result of the sell loop over one bar. -/
structure SellOut where
  positions : List Position
  ladders : List Ladder
  capital : ℚ
  trades : List Trade
deriving DecidableEq

/-- Sets the `status` of the ladder at a given index, leaving every other
field and ladder unchanged (the Python code mutates the dict through the
reference held by the position). -/
def setStatusAt : List Ladder → ℕ → LStatus → List Ladder
  | [], _, _ => []
  | l :: rest, 0, st => { l with status := st } :: rest
  | l :: rest, i + 1, st => l :: setStatusAt rest i st

/-- Embedding of the buy loop of `Backtester.run` (backtest/backtester.py
lines 40-59): for each ladder still `pending`, if the bar's low reaches its
buy price and the cash covers cost plus the hardcoded 0.001 fee, debit the
cash, open a position and mark the ladder active; with insufficient cash the
level is skipped for this bar.  Reading a missing `buy_price` or
`btc_amount` key raises KeyError.  `i` is the index of the first ladder of
the list within the full ladder list. -/
def buyPhase (low t : ℚ) : List Ladder → ℕ → ℚ → Except PyError BuyOut
  | [], _, capital => Except.ok ⟨[], capital, []⟩
  | l :: rest, i, capital =>
    if l.status = LStatus.pending then
      match l.buy_price with
      | none => Except.error PyError.keyError
      | some bp =>
        if low ≤ bp then
          match l.btc_amount with
          | none => Except.error PyError.keyError
          | some q =>
            let cost := q * bp
            let fee := cost * (1 / 1000)
            let total_cost := cost + fee
            if total_cost ≤ capital then
              match buyPhase low t rest (i + 1) (capital - total_cost) with
              | Except.error e => Except.error e
              | Except.ok out =>
                Except.ok ⟨{ l with status := LStatus.active } :: out.ladders, out.capital,
                           ⟨i, l.level, l.sell_price, bp, t, q, total_cost⟩ :: out.positions⟩
            else
              match buyPhase low t rest (i + 1) capital with
              | Except.error e => Except.error e
              | Except.ok out => Except.ok ⟨l :: out.ladders, out.capital, out.positions⟩
        else
          match buyPhase low t rest (i + 1) capital with
          | Except.error e => Except.error e
          | Except.ok out => Except.ok ⟨l :: out.ladders, out.capital, out.positions⟩
    else
      match buyPhase low t rest (i + 1) capital with
      | Except.error e => Except.error e
      | Except.ok out => Except.ok ⟨l :: out.ladders, out.capital, out.positions⟩

/-- Embedding of the sell loop of `Backtester.run` (backtest/backtester.py
lines 61-91): for each open position whose ladder sell price is reached by
the bar's high, credit the net revenue (0.001 fee), record a trade whose
`roi` divides by the position cost (ZeroDivisionError when that cost is
zero), close the ladder and drop the position. -/
def sellPhase (high t : ℚ) : List Position → List Ladder → ℚ → Except PyError SellOut
  | [], ladders, capital => Except.ok ⟨[], ladders, capital, []⟩
  | p :: rest, ladders, capital =>
    match p.sell_price with
    | none => Except.error PyError.keyError
    | some sp =>
      if sp ≤ high then
        let revenue := p.quantity * sp
        let fee := revenue * (1 / 1000)
        let net_revenue := revenue - fee
        let profit := net_revenue - p.cost
        if p.cost = 0 then Except.error PyError.zeroDivisionError
        else
          match sellPhase high t rest (setStatusAt ladders p.idx LStatus.closed)
              (capital + net_revenue) with
          | Except.error e => Except.error e
          | Except.ok out =>
            Except.ok ⟨out.positions, out.ladders, out.capital,
                       ⟨p.buy_time, t, p.level, p.buy_price, sp, p.quantity, p.cost,
                        net_revenue, profit, profit / p.cost * 100⟩ :: out.trades⟩
      else
        match sellPhase high t rest ladders capital with
        | Except.error e => Except.error e
        | Except.ok out => Except.ok ⟨p :: out.positions, out.ladders, out.capital, out.trades⟩

/-- One iteration of the bar loop of `Backtester.run`: buy checks, then sell
checks (so a level can buy and sell within the same bar), then a portfolio
snapshot marking open positions at the bar's close. -/
def processBar (s : BTState) (b : Bar) : Except PyError BTState :=
  match buyPhase b.low b.timestamp s.ladders 0 s.capital with
  | Except.error e => Except.error e
  | Except.ok bo =>
    match sellPhase b.high b.timestamp (s.positions ++ bo.positions) bo.ladders bo.capital with
    | Except.error e => Except.error e
    | Except.ok so =>
      let positions_value := (so.positions.map fun p => p.quantity * b.close).sum
      Except.ok ⟨so.ladders, so.capital, so.positions, s.trades ++ so.trades,
                 s.snaps ++ [⟨b.timestamp, so.capital, positions_value,
                              so.capital + positions_value⟩]⟩

/-- The bar loop of `Backtester.run`, folded over the bar sequence. -/
def runBars : BTState → List Bar → Except PyError BTState
  | s, [] => Except.ok s
  | s, b :: rest =>
    match processBar s b with
    | Except.error e => Except.error e
    | Except.ok s2 => runBars s2 rest

/-- The observable output of `Backtester.run`: the trade log, the snapshot
series and the final cash (the source then feeds these into
`generate_report`). -/
structure RunResult where
  trades : List Trade
  portfolio_value : List Snapshot
  final_capital : ℚ
deriving DecidableEq

/-- Embedding of `Backtester.run` (backtest/backtester.py lines 22-104).
On an empty bar sequence the source crashes with IndexError at
`self.data.index[0]` before anything is simulated.  Otherwise ladder prices
are seeded once with the first bar's close via `Strategy.update_prices` and
every bar is processed in order. -/
def Backtester_run (ladders : List Ladder) (initial_capital unit_size : ℚ)
    (bars : List Bar) : Except PyError RunResult :=
  match bars with
  | [] => Except.error PyError.indexError
  | b0 :: _ =>
    match update_prices b0.close unit_size ladders with
    | Except.error e => Except.error e
    | Except.ok priced =>
      match runBars ⟨priced, initial_capital, [], [], []⟩ bars with
      | Except.error e => Except.error e
      | Except.ok s => Except.ok ⟨s.trades, s.snaps, s.capital⟩

/-- Weak per-ladder invariant used for the cash-nonnegativity claim:
whenever the sell price or base amount keys are present they are
nonnegative. -/
def WLadder (l : Ladder) : Prop :=
  (∀ x, l.sell_price = some x → 0 ≤ x) ∧ (∀ x, l.btc_amount = some x → 0 ≤ x)

/-- Weak per-position invariant: nonnegative quantity, nonnegative sell
price when present. -/
def WPos (p : Position) : Prop :=
  0 ≤ p.quantity ∧ ∀ x, p.sell_price = some x → 0 ≤ x

/-- Weak invariant of the backtest loop state: nonnegative cash, weak
invariants for every ladder and open position, and nonnegative cash in
every snapshot taken so far. -/
def StateW (s : BTState) : Prop :=
  0 ≤ s.capital ∧ (∀ p ∈ s.positions, WPos p) ∧ (∀ l ∈ s.ladders, WLadder l) ∧
    ∀ sn ∈ s.snaps, 0 ≤ sn.cash

/-- Strong per-ladder invariant used for the no-abort claim: every key read
by the bar loop is present, with positive buy price and amount. -/
def SLadder (l : Ladder) : Prop :=
  (∃ bp, l.buy_price = some bp ∧ 0 < bp) ∧ (∃ sp, l.sell_price = some sp) ∧
    ∃ q, l.btc_amount = some q ∧ 0 < q

/-- Strong per-position invariant: nonzero cost (so the roi division cannot
raise) and a present sell price. -/
def SPos (p : Position) : Prop :=
  p.cost ≠ 0 ∧ ∃ sp, p.sell_price = some sp

/-- Strong invariant of the backtest loop state. -/
def StateS (s : BTState) : Prop :=
  (∀ p ∈ s.positions, SPos p) ∧ ∀ l ∈ s.ladders, SLadder l

/-! ### Helper lemmas -/

lemma setStatusAt_pres {P : Ladder → Prop}
    (hP : ∀ l st, P l → P { l with status := st }) :
    ∀ (ls : List Ladder) (i : ℕ) (st : LStatus), (∀ l ∈ ls, P l) →
      ∀ l ∈ setStatusAt ls i st, P l := by
  intro ls
  induction ls with
  | nil => intro i st _ l hl; cases hl
  | cons a rest ih =>
    intro i st h l hl
    cases i with
    | zero =>
      rcases List.mem_cons.mp hl with rfl | hl
      · exact hP a st (h a (List.mem_cons_self a rest))
      · exact h l (List.mem_cons_of_mem a hl)
    | succ j =>
      rcases List.mem_cons.mp hl with rfl | hl
      · exact h l (List.mem_cons_self l rest)
      · exact ih j st (fun x hx => h x (List.mem_cons_of_mem a hx)) l hl

lemma WLadder_status (l : Ladder) (st : LStatus) (h : WLadder l) :
    WLadder { l with status := st } := h

lemma SLadder_status (l : Ladder) (st : LStatus) (h : SLadder l) :
    SLadder { l with status := st } := h

lemma buyPhase_weak (low t : ℚ) (ls : List Ladder) :
    ∀ (i : ℕ) (cap : ℚ) (out : BuyOut), 0 ≤ cap → (∀ l ∈ ls, WLadder l) →
      buyPhase low t ls i cap = Except.ok out →
      0 ≤ out.capital ∧ (∀ p ∈ out.positions, WPos p) ∧ ∀ l ∈ out.ladders, WLadder l := by
  induction ls with
  | nil =>
    intro i cap out hcap _ h
    simp only [buyPhase, Except.ok.injEq] at h
    subst h
    exact ⟨hcap, by simp, by simp⟩
  | cons l rest ih =>
    intro i cap out hcap hls h
    have hl : WLadder l := hls l (List.mem_cons_self l rest)
    have hrest : ∀ x ∈ rest, WLadder x := fun x hx => hls x (List.mem_cons_of_mem l hx)
    simp only [buyPhase] at h
    split at h
    · -- pending ladder
      split at h
      · exact absurd h (by simp)
      · rename_i bp hbp
        split at h
        · -- buy trigger reached
          split at h
          · exact absurd h (by simp)
          · rename_i q hq
            split at h
            · -- cash covers the cost: buy
              rename_i htc
              cases hrec : buyPhase low t rest (i + 1)
                  (cap - (q * bp + q * bp * (1 / 1000))) with
              | error e => rw [hrec] at h; exact absurd h (by simp)
              | ok out2 =>
                rw [hrec] at h
                simp only [Except.ok.injEq] at h
                subst h
                obtain ⟨h1, h2, h3⟩ := ih (i + 1) _ out2 (by linarith) hrest hrec
                refine ⟨h1, ?_, ?_⟩
                · intro p hp
                  rcases List.mem_cons.mp hp with rfl | hp
                  · exact ⟨hl.2 q hq, fun x hx => hl.1 x hx⟩
                  · exact h2 p hp
                · intro x hx
                  rcases List.mem_cons.mp hx with rfl | hx
                  · exact WLadder_status l LStatus.active hl
                  · exact h3 x hx
            · -- insufficient cash: skip
              cases hrec : buyPhase low t rest (i + 1) cap with
              | error e => rw [hrec] at h; exact absurd h (by simp)
              | ok out2 =>
                rw [hrec] at h
                simp only [Except.ok.injEq] at h
                subst h
                obtain ⟨h1, h2, h3⟩ := ih (i + 1) cap out2 hcap hrest hrec
                refine ⟨h1, h2, ?_⟩
                intro x hx
                rcases List.mem_cons.mp hx with rfl | hx
                · exact hl
                · exact h3 x hx
        · -- low above buy price: skip
          cases hrec : buyPhase low t rest (i + 1) cap with
          | error e => rw [hrec] at h; exact absurd h (by simp)
          | ok out2 =>
            rw [hrec] at h
            simp only [Except.ok.injEq] at h
            subst h
            obtain ⟨h1, h2, h3⟩ := ih (i + 1) cap out2 hcap hrest hrec
            refine ⟨h1, h2, ?_⟩
            intro x hx
            rcases List.mem_cons.mp hx with rfl | hx
            · exact hl
            · exact h3 x hx
    · -- not pending: skip
      cases hrec : buyPhase low t rest (i + 1) cap with
      | error e => rw [hrec] at h; exact absurd h (by simp)
      | ok out2 =>
        rw [hrec] at h
        simp only [Except.ok.injEq] at h
        subst h
        obtain ⟨h1, h2, h3⟩ := ih (i + 1) cap out2 hcap hrest hrec
        refine ⟨h1, h2, ?_⟩
        intro x hx
        rcases List.mem_cons.mp hx with rfl | hx
        · exact hl
        · exact h3 x hx

lemma sellPhase_weak (high t : ℚ) (ps : List Position) :
    ∀ (ls : List Ladder) (cap : ℚ) (out : SellOut), 0 ≤ cap → (∀ p ∈ ps, WPos p) →
      (∀ l ∈ ls, WLadder l) → sellPhase high t ps ls cap = Except.ok out →
      0 ≤ out.capital ∧ (∀ p ∈ out.positions, WPos p) ∧ ∀ l ∈ out.ladders, WLadder l := by
  induction ps with
  | nil =>
    intro ls cap out hcap _ hls h
    simp only [sellPhase, Except.ok.injEq] at h
    subst h
    exact ⟨hcap, by simp, hls⟩
  | cons p rest ih =>
    intro ls cap out hcap hps hls h
    have hp : WPos p := hps p (List.mem_cons_self p rest)
    have hrest : ∀ x ∈ rest, WPos x := fun x hx => hps x (List.mem_cons_of_mem p hx)
    simp only [sellPhase] at h
    split at h
    · exact absurd h (by simp)
    · rename_i sp hsp
      have hsp0 : 0 ≤ sp := hp.2 sp hsp
      split at h
      · -- sell trigger reached
        split at h
        · exact absurd h (by simp)
        · rename_i hcost
          cases hrec : sellPhase high t rest (setStatusAt ls p.idx LStatus.closed)
              (cap + (p.quantity * sp - p.quantity * sp * (1 / 1000))) with
          | error e => rw [hrec] at h; exact absurd h (by simp)
          | ok out2 =>
            rw [hrec] at h
            simp only [Except.ok.injEq] at h
            subst h
            have hnet : 0 ≤ p.quantity * sp - p.quantity * sp * (1 / 1000) := by
              have := mul_nonneg hp.1 hsp0
              linarith
            exact ih (setStatusAt ls p.idx LStatus.closed) _ out2 (by linarith) hrest
              (setStatusAt_pres WLadder_status ls p.idx LStatus.closed hls) hrec
      · -- sell price not reached: keep position
        cases hrec : sellPhase high t rest ls cap with
        | error e => rw [hrec] at h; exact absurd h (by simp)
        | ok out2 =>
          rw [hrec] at h
          simp only [Except.ok.injEq] at h
          subst h
          obtain ⟨h1, h2, h3⟩ := ih ls cap out2 hcap hrest hls hrec
          refine ⟨h1, ?_, h3⟩
          intro x hx
          rcases List.mem_cons.mp hx with rfl | hx
          · exact hp
          · exact h2 x hx

lemma processBar_weak (s : BTState) (b : Bar) (s2 : BTState)
    (hs : StateW s) (h : processBar s b = Except.ok s2) : StateW s2 := by
  obtain ⟨hcap, hps, hls, hsnaps⟩ := hs
  simp only [processBar] at h
  cases hbuy : buyPhase b.low b.timestamp s.ladders 0 s.capital with
  | error e => rw [hbuy] at h; exact absurd h (by simp)
  | ok bo =>
    rw [hbuy] at h
    dsimp only at h
    obtain ⟨hb1, hb2, hb3⟩ := buyPhase_weak b.low b.timestamp s.ladders 0 s.capital bo
      hcap hls hbuy
    cases hsell : sellPhase b.high b.timestamp (s.positions ++ bo.positions) bo.ladders
        bo.capital with
    | error e => rw [hsell] at h; exact absurd h (by simp)
    | ok so =>
      rw [hsell] at h
      dsimp only at h
      have hall : ∀ p ∈ s.positions ++ bo.positions, WPos p := by
        intro p hp
        rcases List.mem_append.mp hp with hp | hp
        · exact hps p hp
        · exact hb2 p hp
      obtain ⟨h1, h2, h3⟩ := sellPhase_weak b.high b.timestamp
        (s.positions ++ bo.positions) bo.ladders bo.capital so hb1 hall hb3 hsell
      simp only [Except.ok.injEq] at h
      subst h
      refine ⟨h1, h2, h3, ?_⟩
      intro sn hsn
      rcases List.mem_append.mp hsn with hsn | hsn
      · exact hsnaps sn hsn
      · rcases List.mem_singleton.mp hsn with rfl
        exact h1

lemma runBars_weak (bars : List Bar) :
    ∀ (s s2 : BTState), StateW s → runBars s bars = Except.ok s2 → StateW s2 := by
  induction bars with
  | nil =>
    intro s s2 hs h
    simp only [runBars, Except.ok.injEq] at h
    exact h ▸ hs
  | cons b rest ih =>
    intro s s2 hs h
    simp only [runBars] at h
    cases hpb : processBar s b with
    | error e => rw [hpb] at h; exact absurd h (by simp)
    | ok s1 =>
      rw [hpb] at h
      exact ih s1 s2 (processBar_weak s b s1 hs hpb) h

lemma update_prices_weak (cp u : ℚ) (ls ls2 : List Ladder)
    (hcp : 0 ≤ cp) (hu : 0 ≤ u)
    (hl : ∀ l ∈ ls, 0 ≤ l.buy_price_multiplier ∧ 0 ≤ l.sell_price_multiplier ∧
      l.btc_amount = none)
    (h : update_prices cp u ls = Except.ok ls2) : ∀ l ∈ ls2, WLadder l := by
  cases ls with
  | nil => exact absurd h (by simp [update_prices])
  | cons l0 rest =>
    simp only [update_prices, Except.ok.injEq] at h
    subst h
    intro l hl2
    rcases List.mem_map.mp hl2 with ⟨a, ha, rfl⟩
    have ha' := hl a ha
    have h0 := hl (l0 :: rest).head! (by simp)
    simp only [List.head!] at h0
    by_cases hbs : cp * a.buy_price_multiplier ≤ 0 ∨ cp * a.sell_price_multiplier ≤ 0
    · rw [if_pos hbs]
      refine ⟨?_, ?_⟩
      · intro x hx
        simp only [Option.some.injEq] at hx
        subst hx
        exact mul_nonneg hcp ha'.2.1
      · intro x hx
        simp only at hx
        rw [ha'.2.2] at hx
        cases hx
    · rw [if_neg hbs]
      push_neg at hbs
      refine ⟨?_, ?_⟩
      · intro x hx
        simp only [Option.some.injEq] at hx
        subst hx
        exact mul_nonneg hcp ha'.2.1
      · intro x hx
        simp only [Option.some.injEq] at hx
        subst hx
        have hbp : 0 < cp * a.buy_price_multiplier := hbs.1
        have huc : 0 ≤ (a.units : ℚ) * (cp * l0.buy_price_multiplier * u) :=
          mul_nonneg (by positivity) (mul_nonneg (mul_nonneg hcp h0.1) hu)
        exact div_nonneg huc hbp.le

lemma max_pyInt_eq_max_floor (u : Int) (x : ℚ) (hu : 1 ≤ u) :
    max u (pyInt x + 1) = max u (⌊x⌋ + 1) := by
  unfold pyInt
  by_cases hx : 0 ≤ x
  · rw [if_pos hx]
  · rw [if_neg hx]
    push_neg at hx
    have hceil : ⌈x⌉ ≤ 0 := Int.ceil_le.mpr (by exact_mod_cast hx.le)
    have hfloor : ⌊x⌋ ≤ ⌈x⌉ := Int.floor_le_ceil x
    rw [max_eq_left (by omega), max_eq_left (by omega)]

lemma buyPhase_strong (low t : ℚ) (ls : List Ladder) :
    ∀ (i : ℕ) (cap : ℚ), (∀ l ∈ ls, SLadder l) →
      ∃ out, buyPhase low t ls i cap = Except.ok out ∧
        (∀ p ∈ out.positions, SPos p) ∧ ∀ l ∈ out.ladders, SLadder l := by
  induction ls with
  | nil =>
    intro i cap _
    exact ⟨⟨[], cap, []⟩, rfl, by simp, by simp⟩
  | cons l rest ih =>
    intro i cap hls
    obtain ⟨⟨bp, hbp, hbppos⟩, ⟨sp, hsp⟩, ⟨q, hq, hqpos⟩⟩ := hls l (List.mem_cons_self l rest)
    have hrest : ∀ x ∈ rest, SLadder x := fun x hx => hls x (List.mem_cons_of_mem l hx)
    have hcons : ∀ (a : Ladder) (out2 : BuyOut), SLadder a → (∀ x ∈ out2.ladders, SLadder x) →
        ∀ x ∈ a :: out2.ladders, SLadder x := by
      intro a out2 ha hout x hx
      rcases List.mem_cons.mp hx with rfl | hx
      · exact ha
      · exact hout x hx
    by_cases hst : l.status = LStatus.pending
    · by_cases hlow : low ≤ bp
      · by_cases hcap : q * bp + q * bp * (1 / 1000) ≤ cap
        · obtain ⟨out2, hrec, hps2, hls2⟩ := ih (i + 1) (cap - (q * bp + q * bp * (1 / 1000)))
            hrest
          refine ⟨⟨{ l with status := LStatus.active } :: out2.ladders, out2.capital,
            ⟨i, l.level, l.sell_price, bp, t, q, q * bp + q * bp * (1 / 1000)⟩ ::
              out2.positions⟩, ?_, ?_, ?_⟩
          · simp only [buyPhase, if_pos hst, hbp, if_pos hlow, hq, if_pos hcap, hrec]
          · intro p hp
            rcases List.mem_cons.mp hp with rfl | hp
            · refine ⟨?_, sp, hsp⟩
              have hqbp : 0 < q * bp := mul_pos hqpos hbppos
              show q * bp + q * bp * (1 / 1000) ≠ 0
              have : 0 < q * bp + q * bp * (1 / 1000) := by linarith
              exact ne_of_gt this
            · exact hps2 p hp
          · exact hcons _ out2 ⟨⟨bp, hbp, hbppos⟩, ⟨sp, hsp⟩, ⟨q, hq, hqpos⟩⟩ hls2
        · obtain ⟨out2, hrec, hps2, hls2⟩ := ih (i + 1) cap hrest
          refine ⟨⟨l :: out2.ladders, out2.capital, out2.positions⟩, ?_, hps2, ?_⟩
          · simp only [buyPhase, if_pos hst, hbp, if_pos hlow, hq, if_neg hcap, hrec]
          · exact hcons l out2 ⟨⟨bp, hbp, hbppos⟩, ⟨sp, hsp⟩, ⟨q, hq, hqpos⟩⟩ hls2
      · obtain ⟨out2, hrec, hps2, hls2⟩ := ih (i + 1) cap hrest
        refine ⟨⟨l :: out2.ladders, out2.capital, out2.positions⟩, ?_, hps2, ?_⟩
        · simp only [buyPhase, if_pos hst, hbp, if_neg hlow, hrec]
        · exact hcons l out2 ⟨⟨bp, hbp, hbppos⟩, ⟨sp, hsp⟩, ⟨q, hq, hqpos⟩⟩ hls2
    · obtain ⟨out2, hrec, hps2, hls2⟩ := ih (i + 1) cap hrest
      refine ⟨⟨l :: out2.ladders, out2.capital, out2.positions⟩, ?_, hps2, ?_⟩
      · simp only [buyPhase, if_neg hst, hrec]
      · exact hcons l out2 ⟨⟨bp, hbp, hbppos⟩, ⟨sp, hsp⟩, ⟨q, hq, hqpos⟩⟩ hls2

lemma sellPhase_strong (high t : ℚ) (ps : List Position) :
    ∀ (ls : List Ladder) (cap : ℚ), (∀ p ∈ ps, SPos p) → (∀ l ∈ ls, SLadder l) →
      ∃ out, sellPhase high t ps ls cap = Except.ok out ∧
        (∀ p ∈ out.positions, SPos p) ∧ ∀ l ∈ out.ladders, SLadder l := by
  induction ps with
  | nil =>
    intro ls cap _ hls
    exact ⟨⟨[], ls, cap, []⟩, rfl, by simp, hls⟩
  | cons p rest ih =>
    intro ls cap hps hls
    obtain ⟨hcost, sp, hsp⟩ := hps p (List.mem_cons_self p rest)
    have hrest : ∀ x ∈ rest, SPos x := fun x hx => hps x (List.mem_cons_of_mem p hx)
    by_cases hhigh : sp ≤ high
    · obtain ⟨out2, hrec, h2, h3⟩ := ih (setStatusAt ls p.idx LStatus.closed)
        (cap + (p.quantity * sp - p.quantity * sp * (1 / 1000)))
        hrest (setStatusAt_pres SLadder_status ls p.idx LStatus.closed hls)
      refine ⟨⟨out2.positions, out2.ladders, out2.capital,
        ⟨p.buy_time, t, p.level, p.buy_price, sp, p.quantity, p.cost,
         p.quantity * sp - p.quantity * sp * (1 / 1000),
         p.quantity * sp - p.quantity * sp * (1 / 1000) - p.cost,
         (p.quantity * sp - p.quantity * sp * (1 / 1000) - p.cost) / p.cost * 100⟩ ::
           out2.trades⟩, ?_, h2, h3⟩
      simp only [sellPhase, hsp, if_pos hhigh, if_neg hcost, hrec]
    · obtain ⟨out2, hrec, h2, h3⟩ := ih ls cap hrest hls
      refine ⟨⟨p :: out2.positions, out2.ladders, out2.capital, out2.trades⟩, ?_, ?_, h3⟩
      · simp only [sellPhase, hsp, if_neg hhigh, hrec]
      · intro x hx
        rcases List.mem_cons.mp hx with rfl | hx
        · exact ⟨hcost, sp, hsp⟩
        · exact h2 x hx

lemma processBar_strong (s : BTState) (b : Bar) (hs : StateS s) :
    ∃ s2, processBar s b = Except.ok s2 ∧ StateS s2 := by
  obtain ⟨hps, hls⟩ := hs
  obtain ⟨bo, hbuy, hbo2, hbo3⟩ := buyPhase_strong b.low b.timestamp s.ladders 0 s.capital hls
  have hall : ∀ p ∈ s.positions ++ bo.positions, SPos p := by
    intro p hp
    rcases List.mem_append.mp hp with hp | hp
    · exact hps p hp
    · exact hbo2 p hp
  obtain ⟨so, hsell, hso2, hso3⟩ := sellPhase_strong b.high b.timestamp
    (s.positions ++ bo.positions) bo.ladders bo.capital hall hbo3
  refine ⟨⟨so.ladders, so.capital, so.positions, s.trades ++ so.trades,
    s.snaps ++ [⟨b.timestamp, so.capital, (so.positions.map fun p => p.quantity * b.close).sum,
      so.capital + (so.positions.map fun p => p.quantity * b.close).sum⟩]⟩, ?_, hso2, hso3⟩
  simp only [processBar, hbuy, hsell]

lemma runBars_strong (bars : List Bar) :
    ∀ s : BTState, StateS s → ∃ s2, runBars s bars = Except.ok s2 := by
  induction bars with
  | nil =>
    intro s _
    exact ⟨s, rfl⟩
  | cons b rest ih =>
    intro s hs
    obtain ⟨s1, hpb, hs1⟩ := processBar_strong s b hs
    obtain ⟨s2, hrb⟩ := ih s1 hs1
    exact ⟨s2, by simp only [runBars, hpb, hrb]⟩

lemma update_prices_strong (cp u : ℚ) (ls : List Ladder)
    (hcp : 0 < cp) (hu : 0 < u) (hne : ls ≠ [])
    (hl : ∀ l ∈ ls, 0 < l.buy_price_multiplier ∧ 0 < l.sell_price_multiplier ∧ 0 < l.units) :
    ∃ ls2, update_prices cp u ls = Except.ok ls2 ∧ ∀ l ∈ ls2, SLadder l := by
  cases ls with
  | nil => exact absurd rfl hne
  | cons l0 rest =>
    refine ⟨_, rfl, ?_⟩
    intro l hl2
    rcases List.mem_map.mp hl2 with ⟨a, ha, rfl⟩
    obtain ⟨ha1, ha2, ha3⟩ := hl a ha
    have h01 := (hl l0 (List.mem_cons_self l0 rest)).1
    have hbp : 0 < cp * a.buy_price_multiplier := mul_pos hcp ha1
    have hsp : 0 < cp * a.sell_price_multiplier := mul_pos hcp ha2
    have hcond : ¬ (cp * a.buy_price_multiplier ≤ 0 ∨ cp * a.sell_price_multiplier ≤ 0) := by
      push_neg
      exact ⟨hbp, hsp⟩
    rw [if_neg hcond]
    refine ⟨⟨cp * a.buy_price_multiplier, rfl, hbp⟩, ⟨cp * a.sell_price_multiplier, rfl⟩,
      ⟨_, rfl, ?_⟩⟩
    have huc : 0 < (a.units : ℚ) * (cp * l0.buy_price_multiplier * u) := by
      have h0 : 0 < (a.units : ℚ) := by exact_mod_cast ha3
      exact mul_pos h0 (mul_pos (mul_pos hcp h01) hu)
    exact div_pos huc hbp

/-! ### Claims C1, C2, C3: ladder construction diverges from the spec and
from the repository's own tests (`tests/test_strategy.py` asserts the
compound product formula, the `gap_max` clamp, the preserved `raw_gap` and
that all configured levels are produced; the source truncates an additive
cumulative gap and has no clamp). -/

/-- Claim C1 (code bug evidence): on the ZEC configuration of
`tests/test_strategy.py::TestGapClamp` (`base_gap = 0.038`, 13 Fibonacci
weights, `ladders = 13`, `gap_max = 0.95`) the source truncates at the
seventh level, producing 6 of the 13 configured levels, while the claim
(and the test `test_all_13_ladders_created`) requires all 13 levels with
per-level gaps clamped at `gap_max`; the `gap_max` key is never read and no
`raw_gap` is recorded. -/
theorem claim_C1_truncation :
    (_calculate_ladders (38/1000) [1, 1, 2, 3, 5, 8, 13, 21, 34, 55, 89, 144, 233] 13).length
      = 6 := by
  norm_num [_calculate_ladders, _calculate_ladders_aux]

/-- Claim C2 (code bug evidence): on the sample configuration of
`tests/test_strategy.py` (`base_gap = 0.008`, Fibonacci weights), the buy
price multiplier of the third level is the additive `1 - (0.008 + 0.008 +
0.016) = 0.968`, which differs from the product `(1-0.008)(1-0.008)(1-0.016)
= 0.968318976` that the claim and the test `test_ladder_calculation` (its
tolerance is 1e-4) require. -/
theorem claim_C2_additive_multiplier :
    ((_calculate_ladders (8/1000) [1, 1, 2, 3, 5, 8, 13, 21, 34, 55] 10).map
        Ladder.buy_price_multiplier).getD 2 0 = 121/125 ∧
      (121/125 : ℚ) ≠ (1 - 8/1000) * (1 - 8/1000) * (1 - 8/1000 * 2) := by
  constructor
  · norm_num [_calculate_ladders, _calculate_ladders_aux]
  · norm_num

/-- Claim C3 (code bug evidence): with `base_gap = 0.008`, two ladders and
reference price 50000, the second level gets `buy_price = 49200`,
`sell_price = 49600` and `gap = 0.008`, but `buy_price / (1 - gap) =
49596.77...`, off from the sell price by `100/31 ≈ 3.23`, far beyond the
claimed 1e-6 relative tolerance (the additive sell multiplier equals the
previous level's additive buy multiplier, not `buy/(1-gap)`).  The test
`test_sell_equals_buy_divided_by_one_minus_gap` asserts the claimed
relation. -/
theorem claim_C3_sell_buy_reciprocity_fails :
    ((update_prices 50000 (1/100) (_calculate_ladders (8/1000) [1, 1] 2)).toOption.getD
        []).map (fun l => (l.buy_price, l.sell_price, l.gap_percent)) =
      [(some 49600, some 50000, 1/125), (some 49200, some 49600, 1/125)] ∧
    ¬ |(49600 : ℚ) - 49200 / (1 - 1/125)| ≤ 1/1000000 * (49200 / (1 - 1/125)) := by
  constructor
  · norm_num [_calculate_ladders, _calculate_ladders_aux, update_prices, Except.toOption]
  · have h : (49600 : ℚ) - 49200 / (1 - 1/125) = 100/31 := by norm_num
    rw [h, abs_of_pos (by norm_num)]
    norm_num

/-! ### Claim C4: empty bar sequence and per-bar robustness -/

/-- Claim C4 counterexample: invoked on an empty bar sequence, the backtest
run does not fail with the dedicated `EmptyDataError` the claim demands (no
such class exists anywhere in the source); it crashes with the incidental
IndexError raised by `self.data.index[0]`. -/
theorem claim_C4_counterexample :
    Backtester_run (_calculate_ladders (8/1000) [1, 1] 2) 10000 (1/100) [] ≠
      Except.error PyError.emptyDataError := by
  intro h
  simp only [Backtester_run] at h
  injection h with h2
  exact PyError.noConfusion h2

/-- Claim C4 amended: on an empty bar sequence the run fails with the
incidental IndexError from indexing the first bar (not a dedicated
EmptyDataError), and the error result carries no partial trade log; on any
nonempty bar sequence, for a ladder list with positive multipliers and
units, a positive unit size and positive closes, the run never aborts: it
returns a result for every bar sequence regardless of any single bar's
values. -/
theorem claim_C4_amended (ladders : List Ladder) (initial_capital unit_size : ℚ)
    (bars : List Bar) (hne : ladders ≠ [])
    (hl : ∀ l ∈ ladders, 0 < l.buy_price_multiplier ∧ 0 < l.sell_price_multiplier ∧
      0 < l.units)
    (hu : 0 < unit_size) (hb : ∀ b ∈ bars, 0 < b.close) :
    Backtester_run ladders initial_capital unit_size [] =
        Except.error PyError.indexError ∧
      (bars ≠ [] →
        ∃ r, Backtester_run ladders initial_capital unit_size bars = Except.ok r) := by
  constructor
  · rfl
  · intro hbne
    cases bars with
    | nil => exact absurd rfl hbne
    | cons b0 rest =>
      obtain ⟨priced, hup, hpl⟩ := update_prices_strong b0.close unit_size ladders
        (hb b0 (List.mem_cons_self b0 rest)) hu hne hl
      obtain ⟨s2, hrb⟩ := runBars_strong (b0 :: rest) ⟨priced, initial_capital, [], [], []⟩
        ⟨by simp, hpl⟩
      exact ⟨⟨s2.trades, s2.snaps, s2.capital⟩, by simp only [Backtester_run, hup, hrb]⟩

/-- Claim C4 witness: the two-ladder demo configuration fails with
IndexError on no bars and completes on the concrete one-bar sequence. -/
theorem claim_C4_witness :
    Backtester_run (_calculate_ladders (8/1000) [1, 1] 2) 10000 (1/100) [] =
        Except.error PyError.indexError ∧
      (([⟨1, 99, 101, 100⟩] : List Bar) ≠ [] →
        ∃ r, Backtester_run (_calculate_ladders (8/1000) [1, 1] 2) 10000 (1/100)
          [⟨1, 99, 101, 100⟩] = Except.ok r) :=
  claim_C4_amended (_calculate_ladders (8/1000) [1, 1] 2) 10000 (1/100)
    [⟨1, 99, 101, 100⟩]
    (by norm_num [_calculate_ladders, _calculate_ladders_aux]; simp)
    (by norm_num [_calculate_ladders, _calculate_ladders_aux])
    (by norm_num) (by norm_num)

/-! ### Claim C9: cash never goes negative -/

/-- Claim C9 confirmed: with nonnegative initial capital, nonnegative bar
prices, a nonnegative unit size and freshly calculated ladders (nonnegative
multipliers, no stale amount keys), every snapshot that a completed run
produces has nonnegative cash and the final capital is nonnegative: a buy
fires only when cash covers the full cost including fee (otherwise the
level is skipped for that bar), and every sell credits a nonnegative net
revenue. -/
theorem claim_C9_cash_nonneg (ladders : List Ladder) (initial_capital unit_size : ℚ)
    (bars : List Bar) (hc : 0 ≤ initial_capital) (hu : 0 ≤ unit_size)
    (hl : ∀ l ∈ ladders, 0 ≤ l.buy_price_multiplier ∧ 0 ≤ l.sell_price_multiplier ∧
      l.btc_amount = none)
    (hb : ∀ b ∈ bars, 0 ≤ b.low ∧ 0 ≤ b.high ∧ 0 ≤ b.close) :
    ∀ r, Backtester_run ladders initial_capital unit_size bars = Except.ok r →
      (∀ sn ∈ r.portfolio_value, 0 ≤ sn.cash) ∧ 0 ≤ r.final_capital := by
  intro r h
  cases bars with
  | nil => exact absurd h (by simp [Backtester_run])
  | cons b0 rest =>
    simp only [Backtester_run] at h
    cases hup : update_prices b0.close unit_size ladders with
    | error e => rw [hup] at h; exact absurd h (by simp)
    | ok priced =>
      rw [hup] at h
      dsimp only at h
      cases hrb : runBars ⟨priced, initial_capital, [], [], []⟩ (b0 :: rest) with
      | error e => rw [hrb] at h; exact absurd h (by simp)
      | ok s =>
        rw [hrb] at h
        dsimp only at h
        simp only [Except.ok.injEq] at h
        subst h
        have hw : StateW ⟨priced, initial_capital, [], [], []⟩ := by
          refine ⟨hc, by simp, ?_, by simp⟩
          exact update_prices_weak b0.close unit_size ladders priced
            (hb b0 (List.mem_cons_self b0 rest)).2.2 hu hl hup
        have hfin := runBars_weak (b0 :: rest) _ s hw hrb
        exact ⟨hfin.2.2.2, hfin.1⟩

/-- Claim C9 witness: the two-ladder demo run over one concrete bar, with
capital 10000, completes with one trade and keeps cash nonnegative in its
snapshot and at the end. -/
theorem claim_C9_witness :
    Backtester_run (_calculate_ladders (8/1000) [1, 1] 2) 10000 (1/100)
        [⟨1, 99, 101, 100⟩] =
      Except.ok ⟨[⟨1, 1, -1, 496/5, 100, 1/100, 31031/31250, 999/1000, 751/125000,
          18775/31031⟩],
        [⟨1, 1250000751/125000, 0, 1250000751/125000⟩], 1250000751/125000⟩ ∧
      (∀ sn ∈ (⟨[⟨1, 1, -1, 496/5, 100, 1/100, 31031/31250, 999/1000, 751/125000,
            18775/31031⟩],
          [⟨1, 1250000751/125000, 0, 1250000751/125000⟩],
          1250000751/125000⟩ : RunResult).portfolio_value, 0 ≤ sn.cash) ∧
        0 ≤ (⟨[⟨1, 1, -1, 496/5, 100, 1/100, 31031/31250, 999/1000, 751/125000,
            18775/31031⟩],
          [⟨1, 1250000751/125000, 0, 1250000751/125000⟩],
          1250000751/125000⟩ : RunResult).final_capital := by
  have hrun : Backtester_run (_calculate_ladders (8/1000) [1, 1] 2) 10000 (1/100)
      [⟨1, 99, 101, 100⟩] =
      Except.ok ⟨[⟨1, 1, -1, 496/5, 100, 1/100, 31031/31250, 999/1000, 751/125000,
          18775/31031⟩],
        [⟨1, 1250000751/125000, 0, 1250000751/125000⟩], 1250000751/125000⟩ := by
    norm_num [Backtester_run, update_prices, runBars, processBar, buyPhase, sellPhase,
      setStatusAt, _calculate_ladders, _calculate_ladders_aux]
  exact ⟨hrun, claim_C9_cash_nonneg (_calculate_ladders (8/1000) [1, 1] 2) 10000 (1/100)
    [⟨1, 99, 101, 100⟩] (by norm_num) (by norm_num)
    (by norm_num [_calculate_ladders, _calculate_ladders_aux])
    (by norm_num) _ hrun⟩

/-! ### Claim C5: profit computation -/

/-- Claim C5 counterexample: the `roi_percent` returned by
`calculate_profit` is a percentage, 100 times the claimed `profit / cost`
ratio: at `buy = 1`, `sell = 2`, `quantity = 1`, `fee = 0` the profit is 1
and the cost is 1, so the claimed roi is 1 but the code returns 100. -/
theorem claim_C5_counterexample :
    (calculate_profit 0 1 2 1).roi_percent ≠
      (calculate_profit 0 1 2 1).profit / (calculate_profit 0 1 2 1).total_buy_cost := by
  norm_num [calculate_profit]

/-- Claim C5 amended: for every buy price, sell price, quantity and fee
rate, `calculate_profit` returns `cost = buy*qty*(1+fee)`, `revenue =
sell*qty*(1-fee)`, `profit = revenue - cost`, and `roi_percent =
(profit/cost)*100` when the cost is positive and 0 otherwise (in
particular 0, not an error, when the cost is 0). -/
theorem claim_C5_amended (fee_rate buy_price sell_price quantity : ℚ) :
    (calculate_profit fee_rate buy_price sell_price quantity).total_buy_cost =
        buy_price * quantity * (1 + fee_rate) ∧
      (calculate_profit fee_rate buy_price sell_price quantity).net_sell_revenue =
        sell_price * quantity * (1 - fee_rate) ∧
      (calculate_profit fee_rate buy_price sell_price quantity).profit =
        (calculate_profit fee_rate buy_price sell_price quantity).net_sell_revenue -
          (calculate_profit fee_rate buy_price sell_price quantity).total_buy_cost ∧
      (calculate_profit fee_rate buy_price sell_price quantity).roi_percent =
        (if 0 < (calculate_profit fee_rate buy_price sell_price quantity).total_buy_cost then
          (calculate_profit fee_rate buy_price sell_price quantity).profit /
              (calculate_profit fee_rate buy_price sell_price quantity).total_buy_cost * 100
        else 0) := by
  refine ⟨by simp [calculate_profit]; ring, by simp [calculate_profit]; ring,
    by simp [calculate_profit], by simp [calculate_profit]⟩

/-! ### Claim C8: round-trip fees -/

/-- Claim C8 confirmed: a round trip at equal entry and exit price `p > 0`
with quantity `q > 0` and fee rate `f > 0` always loses money: the profit
is `-2*f*p*q < 0`. -/
theorem claim_C8_fee_consistency (p q f : ℚ) (hp : 0 < p) (hq : 0 < q) (hf : 0 < f) :
    (calculate_profit f p p q).profit < 0 := by
  have hpq : 0 < p * q := mul_pos hp hq
  simp only [calculate_profit]
  nlinarith

/-- Claim C8 witness: a concrete losing round trip at `p = 50000`,
`q = 0.1`, `f = 0.001`. -/
theorem claim_C8_witness : (calculate_profit (1/1000) 50000 50000 (1/10)).profit < 0 :=
  claim_C8_fee_consistency 50000 (1/10) (1/1000) (by norm_num) (by norm_num) (by norm_num)

/-! ### Claim C6: zero-trade report -/

/-- Claim C6 counterexample: the zero-trade report is the dict
`{'error': 'No trades executed', 'initial_capital': ..., 'final_capital':
...}`; it carries no `no_trades` flag and no `win_rate` sentinel. -/
theorem claim_C6_counterexample :
    List.lookup "no_trades" (generate_report_no_trades 10000 10000) = none ∧
      List.lookup "win_rate" (generate_report_no_trades 10000 10000) = none := by
  constructor <;> rfl

/-- Claim C6 amended: a backtest with zero trades yields the explicit
marker report `{'error': 'No trades executed'}` together with the initial
and final capital, with no statistics entries at all (hence no NaN-laden
statistics, but also no `no_trades=true` flag and no `win_rate` key). -/
theorem claim_C6_amended (initial_capital final_capital : ℚ) :
    List.lookup "error" (generate_report_no_trades initial_capital final_capital) =
        some (RVal.s "No trades executed") ∧
      List.lookup "initial_capital" (generate_report_no_trades initial_capital final_capital) =
        some (RVal.q initial_capital) ∧
      List.lookup "final_capital" (generate_report_no_trades initial_capital final_capital) =
        some (RVal.q final_capital) ∧
      List.lookup "no_trades" (generate_report_no_trades initial_capital final_capital) =
        none ∧
      List.lookup "win_rate" (generate_report_no_trades initial_capital final_capital) =
        none := by
  refine ⟨rfl, rfl, rfl, rfl, rfl⟩

/-! ### Claim C7: maximum drawdown -/

lemma minAux_le_init (m : ℚ) (l : List ℚ) : minAux m l ≤ m := by
  induction l generalizing m with
  | nil => exact le_refl m
  | cons v vs ih => exact le_trans (ih (min m v)) (min_le_left m v)

lemma minAux_le_mem (m : ℚ) (l : List ℚ) (d : ℚ) (h : d ∈ l) : minAux m l ≤ d := by
  induction l generalizing m with
  | nil => cases h
  | cons v vs ih =>
    simp only [minAux]
    rcases List.mem_cons.mp h with h | h
    · subst h
      exact le_trans (minAux_le_init (min m d) vs) (min_le_right m d)
    · exact ih (min m v) h

lemma minAux_eq_init (m : ℚ) (l : List ℚ) (h : ∀ x ∈ l, m ≤ x) : minAux m l = m := by
  induction l with
  | nil => rfl
  | cons v vs ih =>
    have hmv : min m v = m := min_eq_left (h v (List.mem_cons_self v vs))
    simpa [minAux, hmv] using ih fun x hx => h x (List.mem_cons_of_mem v hx)

lemma peaksAux_of_chain (p : ℚ) (vs : List ℚ) (h : List.Chain (· ≤ ·) p vs) :
    peaksAux p vs = vs := by
  induction vs generalizing p with
  | nil => rfl
  | cons v rest ih =>
    rcases List.chain_cons.mp h with ⟨hpv, hrest⟩
    simp [peaksAux, max_eq_right hpv, ih v hrest]

lemma exists_neg_drawdown (p : ℚ) (vs : List ℚ) (hp : 0 ≤ p)
    (hvs : ∀ v ∈ vs, 0 ≤ v) (h : ¬ List.Chain (· ≤ ·) p vs) :
    ∃ d ∈ List.zipWith (fun v pk => (v - pk) / pk) vs (peaksAux p vs), d < 0 := by
  induction vs generalizing p with
  | nil => exact absurd List.Chain.nil h
  | cons v rest ih =>
    by_cases hpv : p ≤ v
    · have hnr : ¬ List.Chain (· ≤ ·) v rest := fun hc => h (List.chain_cons.mpr ⟨hpv, hc⟩)
      have hv : 0 ≤ v := hvs v (List.mem_cons_self v rest)
      obtain ⟨d, hd, hdneg⟩ :=
        ih v hv (fun x hx => hvs x (List.mem_cons_of_mem v hx)) hnr
      refine ⟨d, ?_, hdneg⟩
      simp only [peaksAux, max_eq_right hpv, List.zipWith_cons_cons]
      exact List.mem_cons_of_mem _ hd
    · push_neg at hpv
      have hppos : 0 < p := lt_of_le_of_lt (hvs v (List.mem_cons_self v rest)) hpv
      refine ⟨(v - max p v) / max p v, ?_, ?_⟩
      · simp [peaksAux, List.zipWith_cons_cons]
      · rw [max_eq_left hpv.le]
        exact div_neg_of_neg_of_pos (by linarith) hppos

/-- Claim C7 confirmed: for every nonempty sequence of nonnegative
`total_value` snapshots, `_calculate_max_drawdown` (running peak,
elementwise `(value - peak)/peak`, minimum times 100) is at most 0, and is
exactly 0 if and only if the values are non-decreasing throughout. -/
theorem claim_C7_max_drawdown (vs : List ℚ) (hne : vs ≠ [])
    (hnn : ∀ v ∈ vs, 0 ≤ v) :
    _calculate_max_drawdown vs ≤ 0 ∧
      (_calculate_max_drawdown vs = 0 ↔ List.Chain' (· ≤ ·) vs) := by
  obtain ⟨v, rest, rfl⟩ := List.exists_cons_of_ne_nil hne
  have hv : 0 ≤ v := hnn v (List.mem_cons_self v rest)
  have hrest : ∀ x ∈ rest, 0 ≤ x := fun x hx => hnn x (List.mem_cons_of_mem v hx)
  have hd0 : (v - v) / v = 0 := by simp
  have hmdd : _calculate_max_drawdown (v :: rest) =
      minAux 0 (List.zipWith (fun x pk => (x - pk) / pk) rest (peaksAux v rest)) * 100 := by
    simp [_calculate_max_drawdown, drawdown_list, expanding_max, hd0]
  constructor
  · rw [hmdd]
    have := minAux_le_init 0 (List.zipWith (fun x pk => (x - pk) / pk) rest (peaksAux v rest))
    nlinarith
  · constructor
    · intro hzero
      by_contra hnc
      have hnc' : ¬ List.Chain (· ≤ ·) v rest := hnc
      obtain ⟨d, hd, hdneg⟩ := exists_neg_drawdown v rest hv hrest hnc'
      have := minAux_le_mem 0 _ d hd
      rw [hmdd] at hzero
      nlinarith
    · intro hc
      have hc' : List.Chain (· ≤ ·) v rest := hc
      rw [hmdd, peaksAux_of_chain v rest hc']
      have hz : List.zipWith (fun x pk => (x - pk) / pk) rest rest =
          rest.map fun _ => (0 : ℚ) := by
        rw [List.zipWith_same]
        exact List.map_congr_left fun x _ => by simp
      rw [hz, minAux_eq_init 0 _ (by simp), zero_mul]

/-- Claim C7 witness: the concrete falling sequence `[100, 50]` has
drawdown `-50% ≤ 0` and is not non-decreasing, so the drawdown is not 0. -/
theorem claim_C7_witness :
    _calculate_max_drawdown [100, 50] ≤ 0 ∧
      (_calculate_max_drawdown [100, 50] = 0 ↔ List.Chain' (· ≤ ·) [(100 : ℚ), 50]) :=
  claim_C7_max_drawdown [100, 50] (by simp) (by norm_num)

/-! ### Claim C10: Martingale position sizing -/

/-- Claim C10 confirmed: for levels from 1 up and a nonnegative fee rate,
`calculate_position_size` with `gap_amount = 0` raises ZeroDivisionError,
and with `gap_amount ≠ 0` returns `recommended_units =
max(2^(level-1), floor((previous_cost + target_profit) / ((1 + 2*fee_rate)
* gap_amount)) + 1)` — the `gap_amount / gap_amount` factor inside the
minimum-position-value divisor cancels to 1, so that threshold is
`(previous_cost + target_profit) / (1 + 2*fee_rate)`. -/
theorem claim_C10_position_size (fee_rate : ℚ) (level : ℕ)
    (previous_cost gap_amount target_profit : ℚ)
    (hf : 0 ≤ fee_rate) (_hl : 1 ≤ level) :
    (gap_amount = 0 →
      calculate_position_size fee_rate level previous_cost gap_amount target_profit =
        Except.error PyError.zeroDivisionError) ∧
    (gap_amount ≠ 0 →
      calculate_position_size fee_rate level previous_cost gap_amount target_profit =
        Except.ok ⟨level, 2 ^ (level - 1), previous_cost, target_profit,
          max (2 ^ (level - 1))
            (⌊(previous_cost + target_profit) / ((1 + 2 * fee_rate) * gap_amount)⌋ + 1)⟩) := by
  constructor
  · intro hg
    simp [calculate_position_size, hg]
  · intro hg
    have hfm : (0 : ℚ) < 1 + 2 * fee_rate := by linarith
    have hdiv : gap_amount / gap_amount = 1 := div_self hg
    have hpow : (1 : Int) ≤ 2 ^ (level - 1) := by
      have := pow_pos (by norm_num : (0 : Int) < 2) (level - 1)
      omega
    simp only [calculate_position_size, if_neg hg, hdiv, one_mul, if_neg (ne_of_gt hfm),
      div_div]
    rw [max_pyInt_eq_max_floor _ _ hpow]

/-- Claim C10 witness: level 3 with `previous_cost = 1000`, `gap = 100`,
`target = 10`, `fee = 0.001` recommends `max(4, floor(1010/100.2) + 1) =
11` units. -/
theorem claim_C10_witness :
    calculate_position_size (1/1000) 3 1000 100 10 =
        Except.ok ⟨3, 2 ^ (3 - 1), 1000, 10,
          max (2 ^ (3 - 1)) (⌊(1000 + 10 : ℚ) / ((1 + 2 * (1/1000)) * 100)⌋ + 1)⟩ ∧
      max (2 ^ (3 - 1) : Int) (⌊(1000 + 10 : ℚ) / ((1 + 2 * (1/1000)) * 100)⌋ + 1) = 11 := by
  constructor
  · exact (claim_C10_position_size (1/1000) 3 1000 100 10 (by norm_num) (by norm_num)).2
      (by norm_num)
  · have h : ((1000 + 10 : ℚ) / ((1 + 2 * (1/1000)) * 100)) = 5050/501 := by norm_num
    rw [h]
    have hfl : ⌊(5050/501 : ℚ)⌋ = 10 := by
      rw [Int.floor_eq_iff]
      norm_num
    rw [hfl]
    norm_num
